import Mathlib

/-!
Shallow embedding of the clustbench sklearn runner
(src/run_sklearn.py together with src/prng.py).

Label vectors are lists of integers.  The external sklearn clustering
capability is abstracted as an oracle taking the algorithm configuration
and the ambient pseudo-random generator state and returning either a
zero-based label vector (Except.ok) or a raised exception (Except.error),
together with the generator state it leaves behind.  Python dicts, whose
insertion order determines the output column order of the result matrix,
are embedded as association lists with in-place update of existing keys
and append of new keys.
-/

/-- The ambient pseudo-random state: one component for the numpy
generator and one for the Python random module generator. -/
structure PState (σ : Type) where
  np : σ
  py : σ
  deriving DecidableEq, Repr

/-- Embedding of prng.set_seed: a context manager that saves the current
numpy and Python random states, seeds both generators, runs the block and,
in a finally clause, restores both saved states (hence restoration also
happens when the block raises).  npS and pyS abstract np.random.seed and
random.seed.  On seed None the block runs with no capture or restore. -/
def set_seed {σ ε α : Type} (npS pyS : Int → σ) (seed : Option Int)
    (block : PState σ → Except ε α × PState σ) (s : PState σ) :
    Except ε α × PState σ :=
  match seed with
  | none => block s
  | some sd =>
    -- np_state = np.random.get_state(); py_state = random.getstate()
    let np_state := s.np
    let py_state := s.py
    -- try: np.random.seed(seed); random.seed(seed); yield
    let s1 : PState σ := { s with np := npS sd }
    let s2 : PState σ := { s1 with py := pyS sd }
    match block s2 with
    | (r, sAfter) =>
      -- finally: np.random.set_state(np_state); random.setstate(py_state)
      (r, { sAfter with np := np_state, py := py_state })

/-- A value stored in the per-slot result dict: either the empty-dict
placeholder that do_birch and do_kmeans pre-assign to every slot key, or
an accepted label vector. -/
inductive Entry where
  | empty : Entry
  | labels : List Int → Entry
  deriving DecidableEq, Repr

/-- Insertion-ordered dict update: an existing key is overwritten in
place, a new key is appended at the end (Python dict semantics). -/
def dinsert {V : Type} (k : Nat) (v : V) : List (Nat × V) → List (Nat × V)
  | [] => [(k, v)]
  | (j, w) :: rest => if j = k then (k, v) :: rest else (j, w) :: dinsert k v rest

/-- Dict lookup. -/
def dget {V : Type} (k : Nat) : List (Nat × V) → Option V
  | [] => none
  | (j, v) :: rest => if j = k then some v else dget k rest

/-- Dict membership test (the Python expression `key in d`). -/
def dmem {V : Type} (k : Nat) (d : List (Nat × V)) : Bool :=
  (dget k d).isSome

/-- The keys of the dict in insertion order (`d.keys()`); the output
matrix columns follow this order. -/
def dkeys {V : Type} (d : List (Nat × V)) : List Nat :=
  d.map Prod.fst

/-- np.max on a label list; none models the exception raised on an empty
array. -/
def listMax : List Int → Option Int
  | [] => none
  | x :: xs => some (xs.foldl max x)

/-- min on a label list; none models the exception raised on an empty
array. -/
def listMin : List Int → Option Int
  | [] => none
  | x :: xs => some (xs.foldl min x)

/-- Embedding of generate_k_range: the sweep targets k-2..k+2, each value
below 2 replaced by 2, keyed 0..4 in that order. -/
def generate_k_range (k : Int) : List (Nat × Int) :=
  (List.range 5).map (fun i =>
    let x := k - 2 + Int.ofNat i
    (i, if x ≥ 2 then x else 2))

/-- The four assertions of do_spectral on the already 1-based labels:
minimum 1, maximum K, length N, exactly K distinct values. -/
def spectralOK (N : Nat) (K : Int) (labels : List Int) : Bool :=
  (listMin labels == some 1) && (listMax labels == some K) &&
    (labels.length == N) && (((labels.dedup.length : Int)) == K)

/-- The configuration passed to sklearn.cluster.SpectralClustering. -/
structure SpectralParams where
  n_clusters : Int
  affinity : String
  gamma : Rat
  deriving DecidableEq, Repr

/-- The configuration passed to sklearn.cluster.Birch. -/
structure BirchParams where
  n_clusters : Int
  threshold : Rat
  branching_factor : Nat
  deriving DecidableEq, Repr

/-- The affinity axis of the spectral grid, in source order. -/
def spectralAffinities : List String := ["rbf", "laplacian", "poly", "sigmoid"]

/-- The gamma axis of the spectral grid, in source order
(0.25, 0.5, 1.0, 2.5, 5.0), as explicitly normalized rationals. -/
def spectralGammas : List Rat :=
  [Rat.mk' 1 4, Rat.mk' 1 2, Rat.mk' 1 1, Rat.mk' 5 2, Rat.mk' 5 1]

/-- The branching_factor axis of the birch grid, in source order. -/
def birchBranchingFactors : List Nat := [10, 50, 100]

/-- The threshold axis of the birch grid, in source order
(0.005, 0.01, 0.025, 0.05, 0.1, 0.25, 0.5, 1.0), as explicitly
normalized rationals. -/
def birchThresholds : List Rat :=
  [Rat.mk' 1 200, Rat.mk' 1 100, Rat.mk' 1 40, Rat.mk' 1 20,
   Rat.mk' 1 10, Rat.mk' 1 4, Rat.mk' 1 2, Rat.mk' 1 1]

/-- `res = dict(); for K in Ks.keys(): res[K] = dict()` — the placeholder
pre-assignment done by do_birch and do_kmeans. -/
def initEmpty (Ks : List (Nat × Int)) : List (Nat × Entry) :=
  Ks.foldl (fun r p => dinsert p.1 Entry.empty r) []

/-- The post-sweep loop of do_spectral and do_birch: any slot id not yet a
key of res receives np.ones(N) as its labeling. -/
def fillFallback (N : Nat) : List (Nat × Int) → List (Nat × Entry) → List (Nat × Entry)
  | [], res => res
  | (kid, _) :: rest, res =>
    if dmem kid res then fillFallback N rest res
    else fillFallback N rest (dinsert kid (Entry.labels (List.replicate N 1)) res)

/-- One iteration of the do_gm slot loop body: inside set_seed(seed), run
GaussianMixture(n_components=K).fit_predict, shift to 1-based, and apply
the collapse fallback when the distinct-label count differs from K.  A
raise from the capability escapes the with block (its finally still
restores the generator state) and, with no try/except in do_gm,
propagates. -/
def gmLoop {σ : Type}
    (oracle : Int → PState σ → Except Unit (List Int) × PState σ)
    (npS pyS : Int → σ) (seed : Int) :
    List (Nat × Int) → List (Nat × Entry) → PState σ →
    Except Unit (List (Nat × Entry)) × PState σ
  | [], res, s => (Except.ok res, s)
  | (kid, K) :: rest, res, s =>
    match set_seed npS pyS (some seed) (fun t =>
        match oracle K t with
        | (Except.error e, t2) => (Except.error e, t2)
        | (Except.ok labels0, t2) =>
          let labels_pred := labels0.map (· + 1)
          if (labels_pred.dedup.length : Int) ≠ K then
            (Except.ok (Entry.labels (List.replicate labels_pred.length K)), t2)
          else
            (Except.ok (Entry.labels labels_pred), t2)) s with
    | (Except.error e, s2) => (Except.error e, s2)
    | (Except.ok entry, s2) => gmLoop oracle npS pyS seed rest (dinsert kid entry res) s2

/-- do_gm: fixed-configuration runner for GaussianMixture; res starts
empty and the matrix columns are its values in insertion order. -/
def do_gm {σ : Type}
    (oracle : Int → PState σ → Except Unit (List Int) × PState σ)
    (npS pyS : Int → σ) (seed : Int) (Ks : List (Nat × Int)) (s : PState σ) :
    Except Unit (List (Nat × Entry)) × PState σ :=
  gmLoop oracle npS pyS seed Ks [] s

/-- One (slot, affinity, gamma) attempt of do_spectral: the whole body sits
in a try/except, so a capability raise or a failed assert makes the
attempt non-qualifying (none); a qualifying attempt returns its 1-based
labels.  The with set_seed block restores the generator state on both
paths. -/
def spectralAttemptRun {σ : Type}
    (oracle : SpectralParams → PState σ → Except Unit (List Int) × PState σ)
    (npS pyS : Int → σ) (seed : Int) (N : Nat) (K : Int) (aff : String) (g : Rat)
    (s : PState σ) : Option (List Int) × PState σ :=
  match set_seed npS pyS (some seed) (fun t =>
      match oracle ⟨K, aff, g⟩ t with
      | (Except.error e, t2) => (Except.error e, t2)
      | (Except.ok labels0, t2) =>
        let labels_pred := labels0.map (· + 1)
        -- assert min == 1; assert max == K; assert len == N; assert unique == K
        if spectralOK N K labels_pred then (Except.ok labels_pred, t2)
        else (Except.error (), t2)) s with
  | (Except.ok l, s2) => (some l, s2)
  | (Except.error _, s2) => (none, s2)

/-- The inner gamma loop of do_spectral: first qualifying attempt is kept
and the loop breaks. -/
def spectralGammaLoop {σ : Type}
    (oracle : SpectralParams → PState σ → Except Unit (List Int) × PState σ)
    (npS pyS : Int → σ) (seed : Int) (N : Nat) (K : Int) (aff : String) :
    List Rat → PState σ → Option (List Int) × PState σ
  | [], s => (none, s)
  | g :: rest, s =>
    match spectralAttemptRun oracle npS pyS seed N K aff g s with
    | (some l, s2) => (some l, s2)
    | (none, s2) => spectralGammaLoop oracle npS pyS seed N K aff rest s2

/-- The middle affinity loop of do_spectral: `if K_id in res: break` makes
it stop as soon as the gamma loop succeeded. -/
def spectralAffLoop {σ : Type}
    (oracle : SpectralParams → PState σ → Except Unit (List Int) × PState σ)
    (npS pyS : Int → σ) (seed : Int) (N : Nat) (K : Int) :
    List String → PState σ → Option (List Int) × PState σ
  | [], s => (none, s)
  | a :: rest, s =>
    match spectralGammaLoop oracle npS pyS seed N K a spectralGammas s with
    | (some l, s2) => (some l, s2)
    | (none, s2) => spectralAffLoop oracle npS pyS seed N K rest s2

/-- The outer slot loop of do_spectral: a successful slot inserts its
labels into res under its slot id. -/
def spectralSlotLoop {σ : Type}
    (oracle : SpectralParams → PState σ → Except Unit (List Int) × PState σ)
    (npS pyS : Int → σ) (seed : Int) (N : Nat) :
    List (Nat × Int) → List (Nat × Entry) → PState σ →
    List (Nat × Entry) × PState σ
  | [], res, s => (res, s)
  | (kid, K) :: rest, res, s =>
    match spectralAffLoop oracle npS pyS seed N K spectralAffinities s with
    | (some l, s2) => spectralSlotLoop oracle npS pyS seed N rest (dinsert kid (Entry.labels l) res) s2
    | (none, s2) => spectralSlotLoop oracle npS pyS seed N rest res s2

/-- do_spectral: first-wins grid runner (slot outer, affinity middle,
gamma inner), then the all-ones fallback loop for slots absent from res. -/
def do_spectral {σ : Type}
    (oracle : SpectralParams → PState σ → Except Unit (List Int) × PState σ)
    (npS pyS : Int → σ) (seed : Int) (N : Nat) (Ks : List (Nat × Int)) (s : PState σ) :
    List (Nat × Entry) × PState σ :=
  match spectralSlotLoop oracle npS pyS seed N Ks [] s with
  | (res, s2) => (fillFallback N Ks res, s2)

/-- One (branching_factor, threshold, slot) attempt of do_birch: inside
try and with set_seed, run Birch.fit_predict, shift to 1-based; the slot
dict entry is overwritten exactly when the maximum label equals K; a raise
is swallowed by the except. -/
def birchAttemptRun {σ : Type}
    (oracle : BirchParams → PState σ → Except Unit (List Int) × PState σ)
    (npS pyS : Int → σ) (seed : Int) (bf : Nat) (thr : Rat) (K : Int)
    (s : PState σ) : Option (List Int) × PState σ :=
  match set_seed npS pyS (some seed) (fun t =>
      match oracle ⟨K, thr, bf⟩ t with
      | (Except.error e, t2) => (Except.error e, t2)
      | (Except.ok labels0, t2) =>
        let labels_pred := labels0.map (· + 1)
        if listMax labels_pred == some K then (Except.ok (some labels_pred), t2)
        else (Except.ok none, t2)) s with
  | (Except.ok r, s2) => (r, s2)
  | (Except.error _, s2) => (none, s2)

/-- The inner slot loop of do_birch for one fixed (bf, thr) pair: every
slot is attempted, a qualifying result always overwrites res[K_id]. -/
def birchSlotLoop {σ : Type}
    (oracle : BirchParams → PState σ → Except Unit (List Int) × PState σ)
    (npS pyS : Int → σ) (seed : Int) (bf : Nat) (thr : Rat) :
    List (Nat × Int) → List (Nat × Entry) → PState σ →
    List (Nat × Entry) × PState σ
  | [], res, s => (res, s)
  | (kid, K) :: rest, res, s =>
    match birchAttemptRun oracle npS pyS seed bf thr K s with
    | (some l, s2) => birchSlotLoop oracle npS pyS seed bf thr rest (dinsert kid (Entry.labels l) res) s2
    | (none, s2) => birchSlotLoop oracle npS pyS seed bf thr rest res s2

/-- The middle threshold loop of do_birch. -/
def birchThrLoop {σ : Type}
    (oracle : BirchParams → PState σ → Except Unit (List Int) × PState σ)
    (npS pyS : Int → σ) (seed : Int) (bf : Nat) :
    List Rat → List (Nat × Int) → List (Nat × Entry) → PState σ →
    List (Nat × Entry) × PState σ
  | [], _, res, s => (res, s)
  | t :: ts, Ks, res, s =>
    match birchSlotLoop oracle npS pyS seed bf t Ks res s with
    | (res2, s2) => birchThrLoop oracle npS pyS seed bf ts Ks res2 s2

/-- The outer branching_factor loop of do_birch. -/
def birchBfLoop {σ : Type}
    (oracle : BirchParams → PState σ → Except Unit (List Int) × PState σ)
    (npS pyS : Int → σ) (seed : Int) :
    List Nat → List (Nat × Int) → List (Nat × Entry) → PState σ →
    List (Nat × Entry) × PState σ
  | [], _, res, s => (res, s)
  | bf :: bfs, Ks, res, s =>
    match birchThrLoop oracle npS pyS seed bf birchThresholds Ks res s with
    | (res2, s2) => birchBfLoop oracle npS pyS seed bfs Ks res2 s2

/-- do_birch: last-wins grid runner (branching_factor outer, threshold
middle, slot inner).  Note that res is pre-populated with a placeholder
for every slot id, so the membership test of the post-sweep fallback loop
never fires. -/
def do_birch {σ : Type}
    (oracle : BirchParams → PState σ → Except Unit (List Int) × PState σ)
    (npS pyS : Int → σ) (seed : Int) (N : Nat) (Ks : List (Nat × Int)) (s : PState σ) :
    List (Nat × Entry) × PState σ :=
  match birchBfLoop oracle npS pyS seed birchBranchingFactors Ks (initEmpty Ks) s with
  | (res, s2) => (fillFallback N Ks res, s2)

/-- One iteration of the do_kmeans slot loop: only the KMeans constructor
sits inside the with set_seed block (construction draws nothing and
raises nothing); fit_predict executes after the scope has exited, at the
restored ambient state, and a raise from it propagates. -/
def kmeansLoop {σ : Type}
    (oracle : Int → PState σ → Except Unit (List Int) × PState σ)
    (npS pyS : Int → σ) (seed : Int) :
    List (Nat × Int) → List (Nat × Entry) → PState σ →
    Except Unit (List (Nat × Entry)) × PState σ
  | [], res, s => (Except.ok res, s)
  | (kid, K) :: rest, res, s =>
    -- with set_seed(seed): c = KMeans(n_clusters=K, random_state=seed)
    match set_seed npS pyS (some seed)
        (fun t => ((Except.ok () : Except Unit Unit), t)) s with
    | (_, s1) =>
      -- labels_pred = c.fit_predict(X) + 1   (outside the with block)
      match oracle K s1 with
      | (Except.error e, s2) => (Except.error e, s2)
      | (Except.ok labels0, s2) =>
        kmeansLoop oracle npS pyS seed rest
          (dinsert kid (Entry.labels (labels0.map (· + 1))) res) s2

/-- do_kmeans: fixed-configuration runner for KMeans; res is pre-populated
with a placeholder per slot (then unconditionally overwritten). -/
def do_kmeans {σ : Type}
    (oracle : Int → PState σ → Except Unit (List Int) × PState σ)
    (npS pyS : Int → σ) (seed : Int) (Ks : List (Nat × Int)) (s : PState σ) :
    Except Unit (List (Nat × Entry)) × PState σ :=
  kmeansLoop oracle npS pyS seed Ks (initEmpty Ks) s

/-- Modelled from the spec: the fixed-config kmeans runner as it would be
with NO seed scope at all, every clustering call executing at the ambient
generator state.  Comparison definition for the amended C3: do_kmeans is
observationally identical to this runner because its fit_predict call sits
outside the set_seed block. -/
def kmeansUnscoped {σ : Type}
    (oracle : Int → PState σ → Except Unit (List Int) × PState σ) :
    List (Nat × Int) → List (Nat × Entry) → PState σ →
    Except Unit (List (Nat × Entry)) × PState σ
  | [], res, s => (Except.ok res, s)
  | (kid, K) :: rest, res, s =>
    match oracle K s with
    | (Except.error e, s2) => (Except.error e, s2)
    | (Except.ok labels0, s2) =>
      kmeansUnscoped oracle rest
        (dinsert kid (Entry.labels (labels0.map (· + 1))) res) s2

/-- The first qualifying value of f along the list, in order. -/
def firstQualList {α β : Type} (f : α → Option β) : List α → Option β
  | [] => none
  | x :: xs =>
    match f x with
    | some b => some b
    | none => firstQualList f xs

/-- The last qualifying value of f along the list, in order. -/
def lastQualList {α β : Type} (f : α → Option β) : List α → Option β
  | [] => none
  | x :: xs =>
    match lastQualList f xs with
    | some b => some b
    | none => f x

/-- The prefix of the list up to and including the first element on which
p holds (the cells a short-circuiting sweep actually visits). -/
def takeThrough {α : Type} (p : α → Bool) : List α → List α
  | [] => []
  | x :: xs => if p x then [x] else x :: takeThrough p xs

/-- What one spectral (affinity, gamma) cell yields for target K: none on
a raise or a failed postcondition, otherwise the accepted 1-based labels.
Because the call happens inside set_seed(seed), it runs at the seeded
state. -/
def spectralQual {σ : Type}
    (oracle : SpectralParams → PState σ → Except Unit (List Int) × PState σ)
    (npS pyS : Int → σ) (seed : Int) (N : Nat) (K : Int)
    (c : String × Rat) : Option (List Int) :=
  match (oracle ⟨K, c.1, c.2⟩ ⟨npS seed, pyS seed⟩).1 with
  | Except.error _ => none
  | Except.ok labels0 =>
    let labels_pred := labels0.map (· + 1)
    if spectralOK N K labels_pred then some labels_pred else none

/-- What one birch (branching_factor, threshold) cell yields for target K:
none on a raise or when the maximum 1-based label differs from K,
otherwise the qualifying 1-based labels. -/
def birchQual {σ : Type}
    (oracle : BirchParams → PState σ → Except Unit (List Int) × PState σ)
    (npS pyS : Int → σ) (seed : Int) (K : Int)
    (c : Nat × Rat) : Option (List Int) :=
  match (oracle ⟨K, c.2, c.1⟩ ⟨npS seed, pyS seed⟩).1 with
  | Except.error _ => none
  | Except.ok labels0 =>
    let labels_pred := labels0.map (· + 1)
    if listMax labels_pred == some K then some labels_pred else none

/-- The spectral grid flattened in enumeration order: affinity outer,
gamma inner. -/
def spectralConfigs : List (String × Rat) :=
  spectralAffinities.flatMap (fun a => spectralGammas.map (fun g => (a, g)))

/-- The birch grid flattened in enumeration order: branching_factor outer,
threshold inner. -/
def birchConfigs : List (Nat × Rat) :=
  birchBranchingFactors.flatMap (fun bf => birchThresholds.map (fun t => (bf, t)))

/-- Lookup through the Except layer of a fixed-config runner result: none
when the run raised before completing. -/
def dgetE (k : Nat) : Except Unit (List (Nat × Entry)) → Option Entry
  | Except.ok d => dget k d
  | Except.error _ => none

/-- An oracle that raises on every birch configuration. -/
def raiseOracleBirch : BirchParams → PState Unit → Except Unit (List Int) × PState Unit :=
  fun _ s => (Except.error (), s)

/-- An oracle that raises on every spectral configuration. -/
def raiseOracleSpectral : SpectralParams → PState Unit → Except Unit (List Int) × PState Unit :=
  fun _ s => (Except.error (), s)

/-- An oracle that raises on every gm call. -/
def raiseOracleGm : Int → PState Unit → Except Unit (List Int) × PState Unit :=
  fun _ s => (Except.error (), s)

/-- An oracle returning the fixed zero-based vector [0, 1, 0] (values the
contiguous range 0..1, length 3) on every birch configuration, never
raising; its 1-based maximum 2 never equals any target K of the k = 5
sweep, so no attempt qualifies. -/
def constOracleBirch : BirchParams → PState Unit → Except Unit (List Int) × PState Unit :=
  fun _ s => (Except.ok [0, 1, 0], s)

/-- Spectral oracle for the column-order counterexample (N = 7): raises
whenever K = 3, otherwise returns 0..K-1 padded with zeros, which passes
all four postconditions. -/
def orderOracleSpectral : SpectralParams → PState Unit → Except Unit (List Int) × PState Unit :=
  fun p s =>
    if p.n_clusters = 3 then (Except.error (), s)
    else (Except.ok ((List.range p.n_clusters.toNat).map Int.ofNat ++
      List.replicate (7 - p.n_clusters.toNat) 0), s)

/-- A state-sensitive clustering capability: the label it returns reveals
the numpy generator state at which fit_predict ran, and the call advances
that state. -/
def kmStateOracle : Int → PState Int → Except Unit (List Int) × PState Int :=
  fun _ s => (Except.ok [s.np], ⟨s.np + 1, s.py⟩)

/-- Birch oracle for the last-wins witness: for K = 5 exactly the first
grid cell (bf 10, thr 0.005) and the last grid cell (bf 100, thr 1.0)
qualify, with distinguishable labelings. -/
def birchWitOracle : BirchParams → PState Unit → Except Unit (List Int) × PState Unit :=
  fun p s =>
    if p.n_clusters = 5 then
      (if p.branching_factor = 10 ∧ p.threshold = Rat.mk' 1 200 then (Except.ok [4, 0, 1], s)
       else if p.branching_factor = 100 ∧ p.threshold = Rat.mk' 1 1 then (Except.ok [4, 1, 2], s)
       else (Except.error (), s))
    else (Except.error (), s)

/-- Spectral oracle for the first-wins witness: for K = 5 exactly the
cells with gamma 0.5 qualify, so the first qualifying cell in enumeration
order is (rbf, gamma 0.5), the second cell overall. -/
def specWitOracle : SpectralParams → PState Unit → Except Unit (List Int) × PState Unit :=
  fun p s =>
    if p.n_clusters = 5 ∧ p.gamma = Rat.mk' 1 2 then
      (Except.ok [0, 1, 2, 3, 4], s)
    else (Except.error (), s)

/-- A variant of specWitOracle that agrees with it on every cell up to and
including the first qualifying one, but returns a different (also
qualifying) labeling on the later gamma-5 cells that a first-wins sweep
must never attempt. -/
def specWitOracle2 : SpectralParams → PState Unit → Except Unit (List Int) × PState Unit :=
  fun p s =>
    if p.n_clusters = 5 ∧ p.gamma = Rat.mk' 1 2 then
      (Except.ok [0, 1, 2, 3, 4], s)
    else if p.n_clusters = 5 ∧ p.gamma = Rat.mk' 5 1 then (Except.ok [4, 3, 2, 1, 0], s)
    else (Except.error (), s)

/-- gm oracle for the collapse-fallback witness: always returns [0, 0, 0],
whose distinct-label count 1 differs from every target K of the sweep. -/
def gmWitOracle : Int → PState Unit → Except Unit (List Int) × PState Unit :=
  fun _ s => (Except.ok [0, 0, 0], s)

/-! ### Lemmas and claim theorems -/

/-- A scope with a concrete seed runs its block at the freshly seeded
state and, whatever state the block leaves behind, hands back the saved
entry state. -/
theorem set_seed_some {σ ε α : Type} (npS pyS : Int → σ) (sd : Int)
    (block : PState σ → Except ε α × PState σ) (s : PState σ) :
    set_seed npS pyS (some sd) block s = ((block ⟨npS sd, pyS sd⟩).1, s) := by
  rcases hb : block ⟨npS sd, pyS sd⟩ with ⟨r, t⟩
  cases s with
  | mk a b => simp [set_seed, hb]

theorem dget_dinsert_self {V : Type} (k : Nat) (v : V) (d : List (Nat × V)) :
    dget k (dinsert k v d) = some v := by
  induction d with
  | nil => simp [dinsert, dget]
  | cons p rest ih =>
    rcases p with ⟨j, w⟩
    by_cases h : j = k
    · subst h; simp [dinsert, dget]
    · simp [dinsert, dget, h, ih]

theorem dget_dinsert_ne {V : Type} {k j : Nat} (h : j ≠ k) (v : V) (d : List (Nat × V)) :
    dget k (dinsert j v d) = dget k d := by
  induction d with
  | nil => simp [dinsert, dget, h]
  | cons p rest ih =>
    rcases p with ⟨i, w⟩
    by_cases hi : i = j
    · subst hi; simp [dinsert, dget, h]
    · by_cases hk : i = k
      · subst hk; simp [dinsert, dget, hi]
      · simp [dinsert, dget, hi, hk, ih]

theorem dget_initEmpty (kid : Nat) :
    ∀ (Ks : List (Nat × Int)) (res : List (Nat × Entry)),
      dget kid (Ks.foldl (fun r p => dinsert p.1 Entry.empty r) res) =
        if kid ∈ dkeys Ks then some Entry.empty else dget kid res := by
  intro Ks
  induction Ks with
  | nil => intro res; simp [dkeys]
  | cons p rest ih =>
    intro res
    rcases p with ⟨j, K⟩
    rw [List.foldl_cons, ih]
    by_cases hm : kid ∈ dkeys rest
    · simp only [dkeys] at hm
      simp [dkeys, hm]
    · simp only [dkeys] at hm
      by_cases hj : j = kid
      · subst hj
        simp [dkeys, hm, dget_dinsert_self]
      · have hne : kid ≠ j := fun hh => hj hh.symm
        simp [dkeys, hm, hne, dget_dinsert_ne hj, List.mem_cons]

theorem firstQualList_append {α β : Type} (f : α → Option β) (l1 l2 : List α) :
    firstQualList f (l1 ++ l2) =
      match firstQualList f l1 with
      | some b => some b
      | none => firstQualList f l2 := by
  induction l1 with
  | nil => simp [firstQualList]
  | cons x xs ih =>
    simp only [List.cons_append, firstQualList]
    cases f x <;> simp [ih]

theorem lastQualList_cons {α β : Type} (f : α → Option β) (x : α) (xs : List α) :
    lastQualList f (x :: xs) =
      match lastQualList f xs with
      | some b => some b
      | none => f x := rfl

theorem lastQualList_append {α β : Type} (f : α → Option β) (l1 l2 : List α) :
    lastQualList f (l1 ++ l2) =
      match lastQualList f l2 with
      | some b => some b
      | none => lastQualList f l1 := by
  induction l1 with
  | nil => cases h : lastQualList f l2 <;> simp [lastQualList, h]
  | cons x xs ih =>
    rw [List.cons_append, lastQualList_cons, ih, lastQualList_cons]
    cases h2 : lastQualList f l2 <;> cases hx : lastQualList f xs <;> simp

theorem firstQualList_map {α γ β : Type} (f : γ → Option β) (g : α → γ) (l : List α) :
    firstQualList f (l.map g) = firstQualList (fun a => f (g a)) l := by
  induction l with
  | nil => simp [firstQualList]
  | cons x xs ih => simp only [List.map_cons, firstQualList, ih]

theorem lastQualList_map {α γ β : Type} (f : γ → Option β) (g : α → γ) (l : List α) :
    lastQualList f (l.map g) = lastQualList (fun a => f (g a)) l := by
  induction l with
  | nil => simp [lastQualList]
  | cons x xs ih => simp only [List.map_cons, lastQualList, ih]

/-- A short-circuiting first-qualifying selection only depends on the
values up to and including the first success: any g agreeing with f there
selects the same result. -/
theorem firstQualList_congr_prefix {α β : Type} (f g : α → Option β) :
    ∀ l : List α,
      (∀ c ∈ takeThrough (fun c => (f c).isSome) l, g c = f c) →
      firstQualList g l = firstQualList f l := by
  intro l
  induction l with
  | nil => intro _; rfl
  | cons x xs ih =>
    intro hag
    have hx : g x = f x := by
      apply hag
      by_cases hfx : (f x).isSome <;> simp [takeThrough, hfx]
    cases hfx : f x with
    | some b => simp [firstQualList, hx, hfx]
    | none =>
      have htail : ∀ c ∈ takeThrough (fun c => (f c).isSome) xs, g c = f c := by
        intro c hc
        apply hag
        have : (f x).isSome = false := by simp [hfx]
        simp [takeThrough, this, hc]
      simp [firstQualList, hx, hfx, ih htail]

theorem spectralAttemptRun_eq {σ : Type}
    (oracle : SpectralParams → PState σ → Except Unit (List Int) × PState σ)
    (npS pyS : Int → σ) (seed : Int) (N : Nat) (K : Int) (aff : String) (g : Rat)
    (s : PState σ) :
    spectralAttemptRun oracle npS pyS seed N K aff g s =
      (spectralQual oracle npS pyS seed N K (aff, g), s) := by
  rcases ho : oracle ⟨K, aff, g⟩ ⟨npS seed, pyS seed⟩ with ⟨r, t2⟩
  cases r with
  | error e => simp [spectralAttemptRun, set_seed_some, ho, spectralQual]
  | ok l0 =>
    by_cases hq : spectralOK N K (l0.map (· + 1)) <;>
      simp [spectralAttemptRun, set_seed_some, ho, spectralQual, hq]

theorem spectralGammaLoop_eq {σ : Type}
    (oracle : SpectralParams → PState σ → Except Unit (List Int) × PState σ)
    (npS pyS : Int → σ) (seed : Int) (N : Nat) (K : Int) (aff : String) :
    ∀ (gs : List Rat) (s : PState σ),
      spectralGammaLoop oracle npS pyS seed N K aff gs s =
        (firstQualList (fun g => spectralQual oracle npS pyS seed N K (aff, g)) gs, s) := by
  intro gs
  induction gs with
  | nil => intro s; rfl
  | cons g rest ih =>
    intro s
    rw [spectralGammaLoop, spectralAttemptRun_eq]
    cases hq : spectralQual oracle npS pyS seed N K (aff, g) <;>
      simp [firstQualList, hq, ih]

theorem spectralAffLoop_eq {σ : Type}
    (oracle : SpectralParams → PState σ → Except Unit (List Int) × PState σ)
    (npS pyS : Int → σ) (seed : Int) (N : Nat) (K : Int) :
    ∀ (affs : List String) (s : PState σ),
      spectralAffLoop oracle npS pyS seed N K affs s =
        (firstQualList (spectralQual oracle npS pyS seed N K)
          (affs.flatMap (fun a => spectralGammas.map (fun g => (a, g)))), s) := by
  intro affs
  induction affs with
  | nil => intro s; rfl
  | cons a rest ih =>
    intro s
    rw [spectralAffLoop, spectralGammaLoop_eq]
    rw [List.flatMap_cons, firstQualList_append, firstQualList_map]
    cases hq : firstQualList (fun g => spectralQual oracle npS pyS seed N K (a, g)) spectralGammas <;>
      simp [hq, ih]

theorem spectralSlotLoop_dget_notmem {σ : Type}
    (oracle : SpectralParams → PState σ → Except Unit (List Int) × PState σ)
    (npS pyS : Int → σ) (seed : Int) (N : Nat) (kid : Nat) :
    ∀ (slots : List (Nat × Int)) (res : List (Nat × Entry)) (s : PState σ),
      kid ∉ dkeys slots →
      dget kid (spectralSlotLoop oracle npS pyS seed N slots res s).1 = dget kid res := by
  intro slots
  induction slots with
  | nil => intro res s _; rfl
  | cons p rest ih =>
    intro res s hnm
    rcases p with ⟨j, Kj⟩
    simp only [dkeys, List.map_cons, List.mem_cons, not_or] at hnm
    have hj : j ≠ kid := fun h => hnm.1 h.symm
    have hrest : kid ∉ dkeys rest := hnm.2
    rw [spectralSlotLoop, spectralAffLoop_eq]
    cases hq : firstQualList (spectralQual oracle npS pyS seed N Kj)
        (spectralAffinities.flatMap (fun a => spectralGammas.map (fun g => (a, g)))) with
    | some l =>
      simp only [hq]
      rw [ih _ s hrest, dget_dinsert_ne hj]
    | none =>
      simp only [hq]
      exact ih _ s hrest

theorem spectralSlotLoop_dget {σ : Type}
    (oracle : SpectralParams → PState σ → Except Unit (List Int) × PState σ)
    (npS pyS : Int → σ) (seed : Int) (N : Nat) (kid : Nat) (K : Int) :
    ∀ (slots : List (Nat × Int)) (res : List (Nat × Entry)) (s : PState σ),
      (dkeys slots).Nodup → (kid, K) ∈ slots →
      dget kid (spectralSlotLoop oracle npS pyS seed N slots res s).1 =
        match firstQualList (spectralQual oracle npS pyS seed N K) spectralConfigs with
        | some l => some (Entry.labels l)
        | none => dget kid res := by
  intro slots
  induction slots with
  | nil => intro res s _ hmem; exact absurd hmem (List.not_mem_nil _)
  | cons p rest ih =>
    intro res s hnd hmem
    rcases p with ⟨j, Kj⟩
    simp only [dkeys, List.map_cons, List.nodup_cons] at hnd
    rcases List.mem_cons.mp hmem with heq | htail
    · injection heq with h1 h2
      subst h1
      subst h2
      have hrest : kid ∉ List.map Prod.fst rest := hnd.1
      rw [spectralSlotLoop, spectralAffLoop_eq]
      cases hq : firstQualList (spectralQual oracle npS pyS seed N K)
          (spectralAffinities.flatMap (fun a => spectralGammas.map (fun g => (a, g)))) with
      | some l =>
        simp only [hq]
        rw [spectralSlotLoop_dget_notmem oracle npS pyS seed N kid rest _ s hrest,
          dget_dinsert_self]
        have hq2 : firstQualList (spectralQual oracle npS pyS seed N K) spectralConfigs = some l := hq
        rw [hq2]
      | none =>
        simp only [hq]
        rw [spectralSlotLoop_dget_notmem oracle npS pyS seed N kid rest res s hrest]
        have hq2 : firstQualList (spectralQual oracle npS pyS seed N K) spectralConfigs = none := hq
        rw [hq2]
    · have hj : j ≠ kid := by
        intro h
        subst h
        exact hnd.1 (List.mem_map.mpr ⟨(j, K), htail, rfl⟩)
      rw [spectralSlotLoop, spectralAffLoop_eq]
      cases hq : firstQualList (spectralQual oracle npS pyS seed N Kj)
          (spectralAffinities.flatMap (fun a => spectralGammas.map (fun g => (a, g)))) with
      | some l =>
        simp only [hq]
        rw [ih _ s hnd.2 htail]
        cases hQ : firstQualList (spectralQual oracle npS pyS seed N K) spectralConfigs <;>
          simp [hQ, dget_dinsert_ne hj]
      | none =>
        simp only [hq]
        exact ih res s hnd.2 htail

theorem fillFallback_dget_isSome (N : Nat) (kid : Nat) :
    ∀ (slots : List (Nat × Int)) (res : List (Nat × Entry)),
      (dget kid res).isSome →
      dget kid (fillFallback N slots res) = dget kid res := by
  intro slots
  induction slots with
  | nil => intro res _; rfl
  | cons p rest ih =>
    intro res hs
    rcases p with ⟨j, Kj⟩
    cases hm : dmem j res with
    | true => rw [fillFallback]; simp only [hm, if_true]; exact ih res hs
    | false =>
      have hj : j ≠ kid := by
        intro h
        subst h
        simp only [dmem] at hm
        rw [hm] at hs
        exact Bool.false_ne_true hs
      rw [fillFallback]; simp only [hm, Bool.false_eq_true, if_false]
      have hins : dget kid (dinsert j (Entry.labels (List.replicate N 1)) res) = dget kid res :=
        dget_dinsert_ne hj _ _
      rw [ih _ (by rw [hins]; exact hs), hins]

theorem fillFallback_dget_none (N : Nat) (kid : Nat) :
    ∀ (slots : List (Nat × Int)) (res : List (Nat × Entry)),
      dget kid res = none → kid ∈ dkeys slots →
      dget kid (fillFallback N slots res) = some (Entry.labels (List.replicate N 1)) := by
  intro slots
  induction slots with
  | nil => intro res _ h; simp [dkeys] at h
  | cons p rest ih =>
    intro res hn hmem
    rcases p with ⟨j, Kj⟩
    by_cases hj : j = kid
    · have hm : dmem j res = false := by
        rw [hj]; simp [dmem, hn]
      rw [fillFallback]; simp only [hm, Bool.false_eq_true, if_false]
      rw [hj]
      rw [fillFallback_dget_isSome N kid rest _ (by rw [dget_dinsert_self]; rfl)]
      exact dget_dinsert_self _ _ _
    · have hmem2 : kid ∈ dkeys rest := by
        simp only [dkeys, List.map_cons, List.mem_cons] at hmem
        rcases hmem with h | h
        · exact absurd h.symm hj
        · exact h
      cases hm : dmem j res with
      | true => rw [fillFallback]; simp only [hm, if_true]; exact ih res hn hmem2
      | false =>
        rw [fillFallback]; simp only [hm, Bool.false_eq_true, if_false]
        exact ih _ (by rw [dget_dinsert_ne hj]; exact hn) hmem2

/-- The accepted entry of do_spectral for slot (kid, K): the first
qualifying attempt in enumeration order, or the all-ones fallback if no
cell qualifies. -/
theorem do_spectral_dget {σ : Type}
    (oracle : SpectralParams → PState σ → Except Unit (List Int) × PState σ)
    (npS pyS : Int → σ) (seed : Int) (N : Nat) (Ks : List (Nat × Int))
    (kid : Nat) (K : Int) (s : PState σ)
    (hnd : (dkeys Ks).Nodup) (hmem : (kid, K) ∈ Ks) :
    dget kid (do_spectral oracle npS pyS seed N Ks s).1 =
      some (Entry.labels
        ((firstQualList (spectralQual oracle npS pyS seed N K) spectralConfigs).getD
          (List.replicate N 1))) := by
  rcases hsl : spectralSlotLoop oracle npS pyS seed N Ks [] s with ⟨res, s2⟩
  have hd0 := spectralSlotLoop_dget oracle npS pyS seed N kid K Ks [] s hnd hmem
  rw [hsl] at hd0
  have hd : dget kid res =
      match firstQualList (spectralQual oracle npS pyS seed N K) spectralConfigs with
      | some l => some (Entry.labels l)
      | none => dget kid ([] : List (Nat × Entry)) := hd0
  have hkin : kid ∈ dkeys Ks := List.mem_map.mpr ⟨(kid, K), hmem, rfl⟩
  simp only [do_spectral, hsl]
  cases hq : firstQualList (spectralQual oracle npS pyS seed N K) spectralConfigs with
  | some l =>
    rw [hq] at hd
    rw [fillFallback_dget_isSome N kid Ks res (by rw [hd]; rfl), hd]
    rfl
  | none =>
    rw [hq] at hd
    have hnone : dget kid res = none := by simpa [dget] using hd
    rw [fillFallback_dget_none N kid Ks res hnone hkin]
    rfl

theorem birchAttemptRun_eq {σ : Type}
    (oracle : BirchParams → PState σ → Except Unit (List Int) × PState σ)
    (npS pyS : Int → σ) (seed : Int) (bf : Nat) (thr : Rat) (K : Int)
    (s : PState σ) :
    birchAttemptRun oracle npS pyS seed bf thr K s =
      (birchQual oracle npS pyS seed K (bf, thr), s) := by
  rcases ho : oracle ⟨K, thr, bf⟩ ⟨npS seed, pyS seed⟩ with ⟨r, t2⟩
  cases r with
  | error e => simp [birchAttemptRun, set_seed_some, ho, birchQual]
  | ok l0 =>
    by_cases hq : listMax (l0.map (· + 1)) = some K <;>
      simp [birchAttemptRun, set_seed_some, ho, birchQual, hq]

theorem birchSlotLoop_dget_notmem {σ : Type}
    (oracle : BirchParams → PState σ → Except Unit (List Int) × PState σ)
    (npS pyS : Int → σ) (seed : Int) (bf : Nat) (thr : Rat) (kid : Nat) :
    ∀ (slots : List (Nat × Int)) (res : List (Nat × Entry)) (s : PState σ),
      kid ∉ dkeys slots →
      dget kid (birchSlotLoop oracle npS pyS seed bf thr slots res s).1 = dget kid res := by
  intro slots
  induction slots with
  | nil => intro res s _; rfl
  | cons p rest ih =>
    intro res s hnm
    rcases p with ⟨j, Kj⟩
    simp only [dkeys, List.map_cons, List.mem_cons, not_or] at hnm
    have hj : j ≠ kid := fun h => hnm.1 h.symm
    have hrest : kid ∉ dkeys rest := hnm.2
    rw [birchSlotLoop, birchAttemptRun_eq]
    cases hq : birchQual oracle npS pyS seed Kj (bf, thr) with
    | some l =>
      simp only [hq]
      rw [ih _ s hrest, dget_dinsert_ne hj]
    | none =>
      simp only [hq]
      exact ih _ s hrest

theorem birchSlotLoop_dget {σ : Type}
    (oracle : BirchParams → PState σ → Except Unit (List Int) × PState σ)
    (npS pyS : Int → σ) (seed : Int) (bf : Nat) (thr : Rat) (kid : Nat) (K : Int) :
    ∀ (slots : List (Nat × Int)) (res : List (Nat × Entry)) (s : PState σ),
      (dkeys slots).Nodup → (kid, K) ∈ slots →
      dget kid (birchSlotLoop oracle npS pyS seed bf thr slots res s).1 =
        match birchQual oracle npS pyS seed K (bf, thr) with
        | some l => some (Entry.labels l)
        | none => dget kid res := by
  intro slots
  induction slots with
  | nil => intro res s _ hmem; exact absurd hmem (List.not_mem_nil _)
  | cons p rest ih =>
    intro res s hnd hmem
    rcases p with ⟨j, Kj⟩
    simp only [dkeys, List.map_cons, List.nodup_cons] at hnd
    rcases List.mem_cons.mp hmem with heq | htail
    · injection heq with h1 h2
      subst h1
      subst h2
      have hrest : kid ∉ List.map Prod.fst rest := hnd.1
      rw [birchSlotLoop, birchAttemptRun_eq]
      cases hq : birchQual oracle npS pyS seed K (bf, thr) with
      | some l =>
        simp only [hq]
        rw [birchSlotLoop_dget_notmem oracle npS pyS seed bf thr kid rest _ s hrest,
          dget_dinsert_self]
      | none =>
        simp only [hq]
        exact birchSlotLoop_dget_notmem oracle npS pyS seed bf thr kid rest res s hrest
    · have hj : j ≠ kid := by
        intro h
        subst h
        exact hnd.1 (List.mem_map.mpr ⟨(j, K), htail, rfl⟩)
      rw [birchSlotLoop, birchAttemptRun_eq]
      cases hq : birchQual oracle npS pyS seed Kj (bf, thr) with
      | some l =>
        simp only [hq]
        rw [ih _ s hnd.2 htail]
        cases hQ : birchQual oracle npS pyS seed K (bf, thr) <;>
          simp [hQ, dget_dinsert_ne hj]
      | none =>
        simp only [hq]
        exact ih res s hnd.2 htail

theorem birchThrLoop_dget {σ : Type}
    (oracle : BirchParams → PState σ → Except Unit (List Int) × PState σ)
    (npS pyS : Int → σ) (seed : Int) (bf : Nat) (kid : Nat) (K : Int) :
    ∀ (ts : List Rat) (Ks : List (Nat × Int)) (res : List (Nat × Entry)) (s : PState σ),
      (dkeys Ks).Nodup → (kid, K) ∈ Ks →
      dget kid (birchThrLoop oracle npS pyS seed bf ts Ks res s).1 =
        match lastQualList (fun t => birchQual oracle npS pyS seed K (bf, t)) ts with
        | some l => some (Entry.labels l)
        | none => dget kid res := by
  intro ts
  induction ts with
  | nil => intro Ks res s _ _; rfl
  | cons t ts ih =>
    intro Ks res s hnd hmem
    rcases hsl : birchSlotLoop oracle npS pyS seed bf t Ks res s with ⟨res2, s2⟩
    have hd0 := birchSlotLoop_dget oracle npS pyS seed bf t kid K Ks res s hnd hmem
    rw [hsl] at hd0
    have hd : dget kid res2 =
        match birchQual oracle npS pyS seed K (bf, t) with
        | some l => some (Entry.labels l)
        | none => dget kid res := hd0
    rw [birchThrLoop]
    simp only [hsl]
    rw [ih Ks res2 s2 hnd hmem, lastQualList_cons]
    cases hQ : lastQualList (fun tt => birchQual oracle npS pyS seed K (bf, tt)) ts with
    | some l => simp [hQ]
    | none =>
      cases hq : birchQual oracle npS pyS seed K (bf, t) <;> simp [hq, hd]

theorem birchBfLoop_dget {σ : Type}
    (oracle : BirchParams → PState σ → Except Unit (List Int) × PState σ)
    (npS pyS : Int → σ) (seed : Int) (kid : Nat) (K : Int) :
    ∀ (bfs : List Nat) (Ks : List (Nat × Int)) (res : List (Nat × Entry)) (s : PState σ),
      (dkeys Ks).Nodup → (kid, K) ∈ Ks →
      dget kid (birchBfLoop oracle npS pyS seed bfs Ks res s).1 =
        match lastQualList (birchQual oracle npS pyS seed K)
            (bfs.flatMap (fun bf => birchThresholds.map (fun t => (bf, t)))) with
        | some l => some (Entry.labels l)
        | none => dget kid res := by
  intro bfs
  induction bfs with
  | nil => intro Ks res s _ _; rfl
  | cons bf bfs ih =>
    intro Ks res s hnd hmem
    rcases hth : birchThrLoop oracle npS pyS seed bf birchThresholds Ks res s with ⟨res2, s2⟩
    have hd0 := birchThrLoop_dget oracle npS pyS seed bf kid K birchThresholds Ks res s hnd hmem
    rw [hth] at hd0
    have hd : dget kid res2 =
        match lastQualList (fun t => birchQual oracle npS pyS seed K (bf, t)) birchThresholds with
        | some l => some (Entry.labels l)
        | none => dget kid res := hd0
    rw [birchBfLoop]
    simp only [hth]
    rw [ih Ks res2 s2 hnd hmem, List.flatMap_cons, lastQualList_append, lastQualList_map]
    cases hQ : lastQualList (birchQual oracle npS pyS seed K)
        (bfs.flatMap (fun bf => birchThresholds.map (fun t => (bf, t)))) with
    | some l => simp [hQ]
    | none =>
      cases hq : lastQualList (fun t => birchQual oracle npS pyS seed K (bf, t)) birchThresholds <;>
        simp [hq, hd]

theorem gmLoop_cons {σ : Type}
    (oracle : Int → PState σ → Except Unit (List Int) × PState σ)
    (npS pyS : Int → σ) (seed : Int) (kid : Nat) (K : Int)
    (rest : List (Nat × Int)) (res : List (Nat × Entry)) (s : PState σ) :
    gmLoop oracle npS pyS seed ((kid, K) :: rest) res s =
      match (oracle K ⟨npS seed, pyS seed⟩).1 with
      | Except.error e => (Except.error e, s)
      | Except.ok labels0 =>
        gmLoop oracle npS pyS seed rest
          (dinsert kid
            (if ((labels0.map (· + 1)).dedup.length : Int) ≠ K then
              Entry.labels (List.replicate (labels0.map (· + 1)).length K)
            else Entry.labels (labels0.map (· + 1))) res) s := by
  rcases ho : oracle K ⟨npS seed, pyS seed⟩ with ⟨r, t2⟩
  cases r with
  | error e => simp [gmLoop, set_seed_some, ho]
  | ok l0 =>
    by_cases hd : ((l0.map (· + 1)).dedup.length : Int) = K
    · simp [gmLoop, set_seed_some, ho, hd]
    · simp [gmLoop, set_seed_some, ho, hd]

theorem kmeansLoop_cons {σ : Type}
    (oracle : Int → PState σ → Except Unit (List Int) × PState σ)
    (npS pyS : Int → σ) (seed : Int) (kid : Nat) (K : Int)
    (rest : List (Nat × Int)) (res : List (Nat × Entry)) (s : PState σ) :
    kmeansLoop oracle npS pyS seed ((kid, K) :: rest) res s =
      match oracle K s with
      | (Except.error e, s2) => (Except.error e, s2)
      | (Except.ok labels0, s2) =>
        kmeansLoop oracle npS pyS seed rest
          (dinsert kid (Entry.labels (labels0.map (· + 1))) res) s2 := by
  rcases ho : oracle K s with ⟨r, s2⟩
  cases r <;> simp [kmeansLoop, set_seed_some, ho]

theorem kmeansLoop_eq_unscoped {σ : Type}
    (oracle : Int → PState σ → Except Unit (List Int) × PState σ)
    (npS pyS : Int → σ) (seed : Int) :
    ∀ (l : List (Nat × Int)) (res : List (Nat × Entry)) (s : PState σ),
      kmeansLoop oracle npS pyS seed l res s = kmeansUnscoped oracle l res s := by
  intro l
  induction l with
  | nil => intro res s; rfl
  | cons p rest ih =>
    intro res s
    rcases p with ⟨kid, K⟩
    rw [kmeansLoop_cons, kmeansUnscoped]
    rcases ho : oracle K s with ⟨r, s2⟩
    cases r <;> simp [ho, ih]

theorem gmLoop_state_independent {σ : Type}
    (oracle : Int → PState σ → Except Unit (List Int) × PState σ)
    (npS pyS : Int → σ) (seed : Int) :
    ∀ (l : List (Nat × Int)) (res : List (Nat × Entry)) (s s2 : PState σ),
      (gmLoop oracle npS pyS seed l res s).1 = (gmLoop oracle npS pyS seed l res s2).1 := by
  intro l
  induction l with
  | nil => intro res s s2; rfl
  | cons p rest ih =>
    intro res s s2
    rcases p with ⟨kid, K⟩
    rw [gmLoop_cons, gmLoop_cons]
    cases (oracle K ⟨npS seed, pyS seed⟩).1 with
    | error e => rfl
    | ok l0 => exact ih _ s s2

theorem spectralSlotLoop_state_independent {σ : Type}
    (oracle : SpectralParams → PState σ → Except Unit (List Int) × PState σ)
    (npS pyS : Int → σ) (seed : Int) (N : Nat) :
    ∀ (slots : List (Nat × Int)) (res : List (Nat × Entry)) (s s2 : PState σ),
      (spectralSlotLoop oracle npS pyS seed N slots res s).1 =
        (spectralSlotLoop oracle npS pyS seed N slots res s2).1 := by
  intro slots
  induction slots with
  | nil => intro res s s2; rfl
  | cons p rest ih =>
    intro res s s2
    rcases p with ⟨j, Kj⟩
    rw [spectralSlotLoop, spectralSlotLoop, spectralAffLoop_eq, spectralAffLoop_eq]
    cases firstQualList (spectralQual oracle npS pyS seed N Kj)
        (spectralAffinities.flatMap (fun a => spectralGammas.map (fun g => (a, g)))) with
    | none => exact ih res s s2
    | some l => exact ih _ s s2

theorem do_spectral_state_independent {σ : Type}
    (oracle : SpectralParams → PState σ → Except Unit (List Int) × PState σ)
    (npS pyS : Int → σ) (seed : Int) (N : Nat) (Ks : List (Nat × Int)) (s s2 : PState σ) :
    (do_spectral oracle npS pyS seed N Ks s).1 = (do_spectral oracle npS pyS seed N Ks s2).1 := by
  rcases h1 : spectralSlotLoop oracle npS pyS seed N Ks [] s with ⟨res1, t1⟩
  rcases h2 : spectralSlotLoop oracle npS pyS seed N Ks [] s2 with ⟨res2, t2⟩
  have hres : res1 = res2 := by
    have h := spectralSlotLoop_state_independent oracle npS pyS seed N Ks [] s s2
    rw [h1, h2] at h
    exact h
  simp only [do_spectral, h1, h2, hres]

theorem birchSlotLoop_state_independent {σ : Type}
    (oracle : BirchParams → PState σ → Except Unit (List Int) × PState σ)
    (npS pyS : Int → σ) (seed : Int) (bf : Nat) (thr : Rat) :
    ∀ (slots : List (Nat × Int)) (res : List (Nat × Entry)) (s s2 : PState σ),
      (birchSlotLoop oracle npS pyS seed bf thr slots res s).1 =
        (birchSlotLoop oracle npS pyS seed bf thr slots res s2).1 := by
  intro slots
  induction slots with
  | nil => intro res s s2; rfl
  | cons p rest ih =>
    intro res s s2
    rcases p with ⟨j, Kj⟩
    rw [birchSlotLoop, birchSlotLoop, birchAttemptRun_eq, birchAttemptRun_eq]
    cases birchQual oracle npS pyS seed Kj (bf, thr) with
    | none => exact ih res s s2
    | some l => exact ih _ s s2

theorem birchThrLoop_state_independent {σ : Type}
    (oracle : BirchParams → PState σ → Except Unit (List Int) × PState σ)
    (npS pyS : Int → σ) (seed : Int) (bf : Nat) :
    ∀ (ts : List Rat) (Ks : List (Nat × Int)) (res : List (Nat × Entry)) (s s2 : PState σ),
      (birchThrLoop oracle npS pyS seed bf ts Ks res s).1 =
        (birchThrLoop oracle npS pyS seed bf ts Ks res s2).1 := by
  intro ts
  induction ts with
  | nil => intro Ks res s s2; rfl
  | cons t ts ih =>
    intro Ks res s s2
    rcases h1 : birchSlotLoop oracle npS pyS seed bf t Ks res s with ⟨res1, t1⟩
    rcases h2 : birchSlotLoop oracle npS pyS seed bf t Ks res s2 with ⟨res2, t2⟩
    have hres : res1 = res2 := by
      have h := birchSlotLoop_state_independent oracle npS pyS seed bf t Ks res s s2
      rw [h1, h2] at h
      exact h
    rw [birchThrLoop, birchThrLoop]
    simp only [h1, h2, hres]
    exact ih Ks res2 t1 t2

theorem birchBfLoop_state_independent {σ : Type}
    (oracle : BirchParams → PState σ → Except Unit (List Int) × PState σ)
    (npS pyS : Int → σ) (seed : Int) :
    ∀ (bfs : List Nat) (Ks : List (Nat × Int)) (res : List (Nat × Entry)) (s s2 : PState σ),
      (birchBfLoop oracle npS pyS seed bfs Ks res s).1 =
        (birchBfLoop oracle npS pyS seed bfs Ks res s2).1 := by
  intro bfs
  induction bfs with
  | nil => intro Ks res s s2; rfl
  | cons bf bfs ih =>
    intro Ks res s s2
    rcases h1 : birchThrLoop oracle npS pyS seed bf birchThresholds Ks res s with ⟨res1, t1⟩
    rcases h2 : birchThrLoop oracle npS pyS seed bf birchThresholds Ks res s2 with ⟨res2, t2⟩
    have hres : res1 = res2 := by
      have h := birchThrLoop_state_independent oracle npS pyS seed bf birchThresholds Ks res s s2
      rw [h1, h2] at h
      exact h
    rw [birchBfLoop, birchBfLoop]
    simp only [h1, h2, hres]
    exact ih Ks res2 t1 t2

theorem do_birch_state_independent {σ : Type}
    (oracle : BirchParams → PState σ → Except Unit (List Int) × PState σ)
    (npS pyS : Int → σ) (seed : Int) (N : Nat) (Ks : List (Nat × Int)) (s s2 : PState σ) :
    (do_birch oracle npS pyS seed N Ks s).1 = (do_birch oracle npS pyS seed N Ks s2).1 := by
  rcases h1 : birchBfLoop oracle npS pyS seed birchBranchingFactors Ks (initEmpty Ks) s with ⟨res1, t1⟩
  rcases h2 : birchBfLoop oracle npS pyS seed birchBranchingFactors Ks (initEmpty Ks) s2 with ⟨res2, t2⟩
  have hres : res1 = res2 := by
    have h := birchBfLoop_state_independent oracle npS pyS seed birchBranchingFactors Ks
      (initEmpty Ks) s s2
    rw [h1, h2] at h
    exact h
  simp only [do_birch, h1, h2, hres]

theorem gmLoop_dget_notmem {σ : Type}
    (oracle : Int → PState σ → Except Unit (List Int) × PState σ)
    (npS pyS : Int → σ) (seed : Int) (kid : Nat) :
    ∀ (l : List (Nat × Int)) (res : List (Nat × Entry)) (s : PState σ),
      kid ∉ dkeys l →
      (∀ p ∈ l, ((oracle p.2 ⟨npS seed, pyS seed⟩).1).toOption.isSome = true) →
      dgetE kid (gmLoop oracle npS pyS seed l res s).1 = dget kid res := by
  intro l
  induction l with
  | nil => intro res s _ _; rfl
  | cons p rest ih =>
    intro res s hnm hok
    rcases p with ⟨j, Kj⟩
    simp only [dkeys, List.map_cons, List.mem_cons, not_or] at hnm
    have hj : j ≠ kid := fun h => hnm.1 h.symm
    have hokj := hok (j, Kj) (List.mem_cons_self _ _)
    rw [gmLoop_cons]
    cases ho : (oracle Kj ⟨npS seed, pyS seed⟩).1 with
    | error e =>
      rw [ho] at hokj
      simp [Except.toOption] at hokj
    | ok l0 =>
      have hrec := ih (dinsert j
          (if ((l0.map (· + 1)).dedup.length : Int) ≠ Kj then
            Entry.labels (List.replicate (l0.map (· + 1)).length Kj)
          else Entry.labels (l0.map (· + 1))) res) s hnm.2
        (fun q hq => hok q (List.mem_cons_of_mem _ hq))
      rw [dget_dinsert_ne hj] at hrec
      exact hrec

theorem gmLoop_dget {σ : Type}
    (oracle : Int → PState σ → Except Unit (List Int) × PState σ)
    (npS pyS : Int → σ) (seed : Int) (kid : Nat) (K : Int) (lK : List Int) :
    ∀ (l : List (Nat × Int)) (res : List (Nat × Entry)) (s : PState σ),
      (dkeys l).Nodup → (kid, K) ∈ l →
      (∀ p ∈ l, ((oracle p.2 ⟨npS seed, pyS seed⟩).1).toOption.isSome = true) →
      (oracle K ⟨npS seed, pyS seed⟩).1 = Except.ok lK →
      dgetE kid (gmLoop oracle npS pyS seed l res s).1 =
        some (if ((lK.map (· + 1)).dedup.length : Int) ≠ K then
                Entry.labels (List.replicate (lK.map (· + 1)).length K)
              else Entry.labels (lK.map (· + 1))) := by
  intro l
  induction l with
  | nil => intro res s _ hmem _ _; exact absurd hmem (List.not_mem_nil _)
  | cons p rest ih =>
    intro res s hnd hmem hok hK
    rcases p with ⟨j, Kj⟩
    simp only [dkeys, List.map_cons, List.nodup_cons] at hnd
    rcases List.mem_cons.mp hmem with heq | htail
    · injection heq with h1 h2
      subst h1
      subst h2
      rw [gmLoop_cons, hK]
      have hrec := gmLoop_dget_notmem oracle npS pyS seed kid rest
        (dinsert kid
          (if ((lK.map (· + 1)).dedup.length : Int) ≠ K then
            Entry.labels (List.replicate (lK.map (· + 1)).length K)
          else Entry.labels (lK.map (· + 1))) res) s hnd.1
        (fun q hq => hok q (List.mem_cons_of_mem _ hq))
      rw [dget_dinsert_self] at hrec
      exact hrec
    · have hj : j ≠ kid := by
        intro h
        subst h
        exact hnd.1 (List.mem_map.mpr ⟨(j, K), htail, rfl⟩)
      have hokj := hok (j, Kj) (List.mem_cons_self _ _)
      rw [gmLoop_cons]
      cases ho : (oracle Kj ⟨npS seed, pyS seed⟩).1 with
      | error e =>
        rw [ho] at hokj
        simp [Except.toOption] at hokj
      | ok l0 =>
        exact ih _ s hnd.2 htail (fun q hq => hok q (List.mem_cons_of_mem _ hq)) hK

/-- C8: for every integer k, generate_k_range returns exactly 5 entries
keyed 0..4 in that order with entry i equal to max(2, k-2+i); every entry
is at least 2, and the three documented examples hold (in particular this
covers every k at least 1). -/
theorem C8_generate_k_range_spec (k : Int) :
    generate_k_range k =
      [(0, max 2 (k - 2)), (1, max 2 (k - 1)), (2, max 2 k),
       (3, max 2 (k + 1)), (4, max 2 (k + 2))] ∧
    ((generate_k_range k).all (fun p => decide (2 ≤ p.2))) = true ∧
    generate_k_range 1 = [(0, 2), (1, 2), (2, 2), (3, 2), (4, 3)] ∧
    generate_k_range 2 = [(0, 2), (1, 2), (2, 2), (3, 3), (4, 4)] ∧
    generate_k_range 5 = [(0, 3), (1, 4), (2, 5), (3, 6), (4, 7)] := by
  have hmax : ∀ x : Int, (if x ≥ 2 then x else 2) = max 2 x := by
    intro x
    rcases le_or_lt 2 x with h | h
    · rw [if_pos h, max_eq_right h]
    · rw [if_neg (not_le.mpr h), max_eq_left (le_of_lt h)]
  have h5 : List.range 5 = [0, 1, 2, 3, 4] := rfl
  have hfirst : generate_k_range k =
      [(0, max 2 (k - 2)), (1, max 2 (k - 1)), (2, max 2 k),
       (3, max 2 (k + 1)), (4, max 2 (k + 2))] := by
    rw [generate_k_range, h5]
    simp only [List.map_cons, List.map_nil, hmax]
    norm_num
    omega
  refine ⟨hfirst, ?_, by decide, by decide, by decide⟩
  rw [hfirst]
  simp [List.all_cons, List.all_nil, le_max_left]

/-- C7: for every non-null seed and every block, including blocks whose
result is a raise, set_seed restores the saved numpy and Python states
exactly on exit (first conjunct), propagates the block outcome computed at
the freshly seeded state (second conjunct), and an inner scope opened at
any in-progress state hands exactly that state back, so nesting is
stack-disciplined (third conjunct). -/
theorem C7_set_seed_scope {σ α : Type} (npS pyS : Int → σ) (sd : Int)
    (block : PState σ → Except Unit α × PState σ) (s : PState σ) :
    (set_seed npS pyS (some sd) block s).2 = s ∧
    (set_seed npS pyS (some sd) block s).1 = (block ⟨npS sd, pyS sd⟩).1 ∧
    (∀ (sd2 : Int) (inner : PState σ → Except Unit α × PState σ) (t : PState σ),
      (set_seed npS pyS (some sd2) inner t).2 = t) := by
  refine ⟨?_, ?_, ?_⟩
  · rw [set_seed_some]
  · rw [set_seed_some]
  · intro sd2 inner t
    rw [set_seed_some]

/-- C5: in the birch last-wins grid sweep (branching_factor outer,
threshold middle, slot inner), a cell qualifies for a slot exactly when it
does not raise and its maximum 1-based label equals the slot target K
(this is birchQual), a qualifying cell always overwrites the slot entry,
and the accepted entry is therefore the LAST qualifying cell in
enumeration order (when two cells qualify, the later wins); with no
qualifying cell the slot keeps its placeholder. -/
theorem C5_birch_last_wins {σ : Type}
    (oracle : BirchParams → PState σ → Except Unit (List Int) × PState σ)
    (npS pyS : Int → σ) (seed : Int) (N : Nat) (Ks : List (Nat × Int))
    (kid : Nat) (K : Int) (s : PState σ)
    (hnd : (dkeys Ks).Nodup) (hmem : (kid, K) ∈ Ks) :
    dget kid (do_birch oracle npS pyS seed N Ks s).1 =
      some (match lastQualList (birchQual oracle npS pyS seed K) birchConfigs with
            | some l => Entry.labels l
            | none => Entry.empty) := by
  rcases hb : birchBfLoop oracle npS pyS seed birchBranchingFactors Ks (initEmpty Ks) s
    with ⟨res, s2⟩
  have hd0 := birchBfLoop_dget oracle npS pyS seed kid K birchBranchingFactors Ks
    (initEmpty Ks) s hnd hmem
  rw [hb] at hd0
  have hd : dget kid res =
      match lastQualList (birchQual oracle npS pyS seed K) birchConfigs with
      | some l => some (Entry.labels l)
      | none => dget kid (initEmpty Ks) := hd0
  have hkin : kid ∈ dkeys Ks := List.mem_map.mpr ⟨(kid, K), hmem, rfl⟩
  have hinit : dget kid (initEmpty Ks) = some Entry.empty := by
    have h : dget kid (Ks.foldl (fun r p => dinsert p.1 Entry.empty r) []) =
        if kid ∈ dkeys Ks then some Entry.empty else dget kid ([] : List (Nat × Entry)) :=
      dget_initEmpty kid Ks []
    rw [if_pos hkin] at h
    exact h
  simp only [do_birch, hb]
  cases hq : lastQualList (birchQual oracle npS pyS seed K) birchConfigs with
  | some l =>
    rw [hq] at hd
    rw [fillFallback_dget_isSome N kid Ks res (by rw [hd]; rfl), hd]
  | none =>
    rw [hq] at hd
    rw [hinit] at hd
    rw [fillFallback_dget_isSome N kid Ks res (by rw [hd]; rfl), hd]

/-- C6: in the spectral first-wins sweep (slot outer, affinity middle,
gamma inner), a cell qualifies exactly when it does not raise and its
1-based labels have minimum 1, maximum K, length N and K distinct values
(this is spectralQual); the accepted entry for a slot is the FIRST
qualifying cell in enumeration order, the all-ones fallback if none
qualifies, and the slot result is unchanged under any modification of the
oracle on cells after the first qualifying one — those cells are never
attempted. -/
theorem C6_spectral_first_wins {σ : Type}
    (oracle : SpectralParams → PState σ → Except Unit (List Int) × PState σ)
    (npS pyS : Int → σ) (seed : Int) (N : Nat) (Ks : List (Nat × Int))
    (kid : Nat) (K : Int) (s : PState σ)
    (hnd : (dkeys Ks).Nodup) (hmem : (kid, K) ∈ Ks) :
    dget kid (do_spectral oracle npS pyS seed N Ks s).1 =
      some (Entry.labels
        ((firstQualList (spectralQual oracle npS pyS seed N K) spectralConfigs).getD
          (List.replicate N 1))) ∧
    (∀ (oracle2 : SpectralParams → PState σ → Except Unit (List Int) × PState σ)
        (s2 : PState σ),
      (∀ c ∈ takeThrough (fun c => (spectralQual oracle npS pyS seed N K c).isSome)
          spectralConfigs,
        spectralQual oracle2 npS pyS seed N K c = spectralQual oracle npS pyS seed N K c) →
      dget kid (do_spectral oracle2 npS pyS seed N Ks s2).1 =
        dget kid (do_spectral oracle npS pyS seed N Ks s).1) := by
  constructor
  · exact do_spectral_dget oracle npS pyS seed N Ks kid K s hnd hmem
  · intro oracle2 s2 hag
    rw [do_spectral_dget oracle2 npS pyS seed N Ks kid K s2 hnd hmem,
      do_spectral_dget oracle npS pyS seed N Ks kid K s hnd hmem,
      firstQualList_congr_prefix (spectralQual oracle npS pyS seed N K)
        (spectralQual oracle2 npS pyS seed N K) spectralConfigs hag]

/-- C9: in do_gm, for a slot with target K whose attempt succeeds with
output lK of length N (and no earlier slot raises), the accepted entry is
the constant-K vector of length N when the distinct-label count of the
1-based output differs from K, and the 1-based output itself otherwise. -/
theorem C9_gm_collapse_fallback {σ : Type}
    (oracle : Int → PState σ → Except Unit (List Int) × PState σ)
    (npS pyS : Int → σ) (seed : Int) (N : Nat) (Ks : List (Nat × Int))
    (kid : Nat) (K : Int) (lK : List Int) (s : PState σ)
    (hnd : (dkeys Ks).Nodup) (hmem : (kid, K) ∈ Ks)
    (hok : ∀ p ∈ Ks, ((oracle p.2 ⟨npS seed, pyS seed⟩).1).toOption.isSome = true)
    (hK : (oracle K ⟨npS seed, pyS seed⟩).1 = Except.ok lK)
    (hlen : lK.length = N) :
    dgetE kid (do_gm oracle npS pyS seed Ks s).1 =
      some (if ((lK.map (· + 1)).dedup.length : Int) ≠ K then
              Entry.labels (List.replicate N K)
            else Entry.labels (lK.map (· + 1))) := by
  have h := gmLoop_dget oracle npS pyS seed kid K lK Ks [] s hnd hmem hok hK
  rw [List.length_map, hlen] at h
  exact h

/-- Witness for C5: with birchWitOracle two cells qualify for slot 2
(target K = 5) — the first cell yields 1-based labels [5, 1, 2] and the
last cell [5, 2, 3] — and the accepted entry is the later one. -/
theorem C5_birch_last_wins_witness :
    (dkeys (generate_k_range 5)).Nodup ∧ ((2 : Nat), (5 : Int)) ∈ generate_k_range 5 ∧
    dget 2 (do_birch birchWitOracle (fun _ => ()) (fun _ => ()) 123 3
        (generate_k_range 5) ⟨(), ()⟩).1 = some (Entry.labels [5, 2, 3]) := by
  have hnd : (dkeys (generate_k_range 5)).Nodup := by decide
  have hmem : ((2 : Nat), (5 : Int)) ∈ generate_k_range 5 := by decide
  have h := C5_birch_last_wins birchWitOracle (fun _ => ()) (fun _ => ()) 123 3
    (generate_k_range 5) 2 5 ⟨(), ()⟩ hnd hmem
  refine ⟨hnd, hmem, ?_⟩
  rw [h]
  decide

/-- Witness for C6: with specWitOracle the cell (rbf, 0.5) is the first
qualifying one for slot 2 (target K = 5) and is accepted, and
specWitOracle2 — which agrees on the attempted prefix but differs on the
later poly cells — produces the identical slot result. -/
theorem C6_spectral_first_wins_witness :
    (dkeys (generate_k_range 5)).Nodup ∧ ((2 : Nat), (5 : Int)) ∈ generate_k_range 5 ∧
    dget 2 (do_spectral specWitOracle (fun _ => ()) (fun _ => ()) 123 5
        (generate_k_range 5) ⟨(), ()⟩).1 = some (Entry.labels [1, 2, 3, 4, 5]) ∧
    dget 2 (do_spectral specWitOracle2 (fun _ => ()) (fun _ => ()) 123 5
        (generate_k_range 5) ⟨(), ()⟩).1 =
      dget 2 (do_spectral specWitOracle (fun _ => ()) (fun _ => ()) 123 5
        (generate_k_range 5) ⟨(), ()⟩).1 := by
  have hnd : (dkeys (generate_k_range 5)).Nodup := by decide
  have hmem : ((2 : Nat), (5 : Int)) ∈ generate_k_range 5 := by decide
  have h := C6_spectral_first_wins specWitOracle (fun _ => ()) (fun _ => ()) 123 5
    (generate_k_range 5) 2 5 ⟨(), ()⟩ hnd hmem
  refine ⟨hnd, hmem, ?_, ?_⟩
  · rw [h.1]
    rfl
  · exact h.2 specWitOracle2 ⟨(), ()⟩ (of_decide_eq_true rfl)

/-- Witness for C9: gmWitOracle returns [0, 0, 0] for every slot; for slot
2 (target K = 5) the distinct-label count 1 differs from 5, so the
accepted entry is the constant vector [5, 5, 5]. -/
theorem C9_gm_collapse_fallback_witness :
    (dkeys (generate_k_range 5)).Nodup ∧ ((2 : Nat), (5 : Int)) ∈ generate_k_range 5 ∧
    (∀ p ∈ generate_k_range 5,
      ((gmWitOracle p.2 ⟨(), ()⟩).1).toOption.isSome = true) ∧
    (gmWitOracle 5 ⟨(), ()⟩).1 = Except.ok [0, 0, 0] ∧
    dgetE 2 (do_gm gmWitOracle (fun _ => ()) (fun _ => ()) 123
        (generate_k_range 5) ⟨(), ()⟩).1 = some (Entry.labels [5, 5, 5]) := by
  have hnd : (dkeys (generate_k_range 5)).Nodup := by decide
  have hmem : ((2 : Nat), (5 : Int)) ∈ generate_k_range 5 := by decide
  have hok : ∀ p ∈ generate_k_range 5,
      ((gmWitOracle p.2 ⟨(), ()⟩).1).toOption.isSome = true := by decide
  have hK : (gmWitOracle 5 ⟨(), ()⟩).1 = Except.ok [0, 0, 0] := rfl
  have h := C9_gm_collapse_fallback gmWitOracle (fun _ => ()) (fun _ => ()) 123 3
    (generate_k_range 5) 2 5 [0, 0, 0] ⟨(), ()⟩ hnd hmem hok hK rfl
  refine ⟨hnd, hmem, hok, hK, ?_⟩
  rw [h]
  decide

/-- C1 (code bug, birch side): with an oracle that raises on every cell no
slot ever qualifies, yet every slot of the returned dict still holds the
empty-dict placeholder installed by the pre-population loop — the
membership test guarding the all-ones fallback never fires, so no slot
receives the all-ones vector, contradicting both the claim and the
comment in the source. -/
theorem C1_birch_fallback_dead :
    (do_birch raiseOracleBirch (fun _ => ()) (fun _ => ()) 123 2
        (generate_k_range 2) ⟨(), ()⟩).1 =
      [(0, Entry.empty), (1, Entry.empty), (2, Entry.empty),
       (3, Entry.empty), (4, Entry.empty)] ∧
    dget 0 (do_birch raiseOracleBirch (fun _ => ()) (fun _ => ()) 123 2
        (generate_k_range 2) ⟨(), ()⟩).1 ≠
      some (Entry.labels (List.replicate 2 1)) := by
  exact ⟨by decide, by decide⟩

/-- C2 (code bug): with orderOracleSpectral slot 0 (target K = 3) never
qualifies while slots 1..4 do, so the fallback loop appends slot 0 LAST
and the result dict key order — which is the output column order — is
[1, 2, 3, 4, 0] rather than slot-id order [0, 1, 2, 3, 4], while the
header row built in main stays in slot-id order. -/
theorem C2_spectral_columns_permuted :
    dkeys (do_spectral orderOracleSpectral (fun _ => ()) (fun _ => ()) 123 7
        (generate_k_range 5) ⟨(), ()⟩).1 = [1, 2, 3, 4, 0] := by
  decide

/-- C10 (code bug): with constOracleBirch — which honours the capability
contract, returning length-3 zero-based vectors over a contiguous range
and never raising — no attempt qualifies for slot 0 (target K = 3), and
the accepted entry is the empty-dict placeholder rather than any length-N
label vector with values in [1, K]. -/
theorem C10_accepted_range_violated :
    dget 0 (do_birch constOracleBirch (fun _ => ()) (fun _ => ()) 123 3
        (generate_k_range 5) ⟨(), ()⟩).1 = some Entry.empty := by
  decide

/-- Counterexample to C3 as stated: in do_kmeans the fit_predict call runs
outside the seed scope, so with a state-sensitive capability two runs that
differ only in the ambient generator state prior to the call produce
different results for slot 0. -/
theorem C3_kmeans_ambient_dependent :
    dgetE 0 (do_kmeans kmStateOracle (fun z => z) (fun z => z) 123
        (generate_k_range 5) ⟨7, 0⟩).1 ≠
      dgetE 0 (do_kmeans kmStateOracle (fun z => z) (fun z => z) 123
        (generate_k_range 5) ⟨8, 0⟩).1 := by
  decide

/-- C3 amended: in the gm, spectral and birch runners every fit_predict
call executes inside set_seed(seed), so their results are invariant under
the ambient generator state; in do_kmeans only the constructor sits inside
the scope and fit_predict runs after it exits, making the runner
observationally identical to one with no seed scope at all. -/
theorem C3_seed_scoping_amended {σ : Type}
    (oG : Int → PState σ → Except Unit (List Int) × PState σ)
    (oS : SpectralParams → PState σ → Except Unit (List Int) × PState σ)
    (oB : BirchParams → PState σ → Except Unit (List Int) × PState σ)
    (oK : Int → PState σ → Except Unit (List Int) × PState σ)
    (npS pyS : Int → σ) (seed : Int) (N : Nat) (Ks : List (Nat × Int)) (s s2 : PState σ) :
    (do_gm oG npS pyS seed Ks s).1 = (do_gm oG npS pyS seed Ks s2).1 ∧
    (do_spectral oS npS pyS seed N Ks s).1 = (do_spectral oS npS pyS seed N Ks s2).1 ∧
    (do_birch oB npS pyS seed N Ks s).1 = (do_birch oB npS pyS seed N Ks s2).1 ∧
    do_kmeans oK npS pyS seed Ks s = kmeansUnscoped oK Ks (initEmpty Ks) s :=
  ⟨gmLoop_state_independent oG npS pyS seed Ks [] s s2,
    do_spectral_state_independent oS npS pyS seed N Ks s s2,
    do_birch_state_independent oB npS pyS seed N Ks s s2,
    kmeansLoop_eq_unscoped oK npS pyS seed Ks (initEmpty Ks) s⟩

/-- Counterexample to C4 as stated: in do_gm a raise from the clustering
capability is NOT recovered locally — with an always-raising oracle the
runner returns the raise to its caller instead of completing. -/
theorem C4_gm_raise_surfaces :
    ((do_gm raiseOracleGm (fun _ => ()) (fun _ => ()) 123
        (generate_k_range 5) ⟨(), ()⟩).1).toOption = none := by
  decide

/-- C4 amended: in the grid runners a raising cell is a non-qualifying
attempt and the sweep simply continues with the next cell (spectral gamma
loop and birch slot loop conjuncts), while in the fixed-config runners a
raising call aborts the slot loop and surfaces the error to the caller
(gm and kmeans conjuncts; the kmeans raise happens at the ambient state,
after the constructor scope has exited). -/
theorem C4_raise_handling_amended {σ : Type}
    (npS pyS : Int → σ) (seed : Int) (N : Nat) :
    (∀ (oS : SpectralParams → PState σ → Except Unit (List Int) × PState σ)
        (K : Int) (aff : String) (g : Rat) (gs : List Rat) (s : PState σ),
      (oS ⟨K, aff, g⟩ ⟨npS seed, pyS seed⟩).1 = Except.error () →
      spectralGammaLoop oS npS pyS seed N K aff (g :: gs) s =
        spectralGammaLoop oS npS pyS seed N K aff gs s) ∧
    (∀ (oB : BirchParams → PState σ → Except Unit (List Int) × PState σ)
        (bf : Nat) (thr : Rat) (kid : Nat) (K : Int) (rest : List (Nat × Int))
        (res : List (Nat × Entry)) (s : PState σ),
      (oB ⟨K, thr, bf⟩ ⟨npS seed, pyS seed⟩).1 = Except.error () →
      birchSlotLoop oB npS pyS seed bf thr ((kid, K) :: rest) res s =
        birchSlotLoop oB npS pyS seed bf thr rest res s) ∧
    (∀ (oG : Int → PState σ → Except Unit (List Int) × PState σ)
        (kid : Nat) (K : Int) (rest : List (Nat × Int))
        (res : List (Nat × Entry)) (s : PState σ),
      (oG K ⟨npS seed, pyS seed⟩).1 = Except.error () →
      gmLoop oG npS pyS seed ((kid, K) :: rest) res s = (Except.error (), s)) ∧
    (∀ (oK : Int → PState σ → Except Unit (List Int) × PState σ)
        (kid : Nat) (K : Int) (rest : List (Nat × Int))
        (res : List (Nat × Entry)) (s : PState σ),
      (oK K s).1 = Except.error () →
      kmeansLoop oK npS pyS seed ((kid, K) :: rest) res s =
        (Except.error (), (oK K s).2)) := by
  refine ⟨?_, ?_, ?_, ?_⟩
  · intro oS K aff g gs s he
    rw [spectralGammaLoop, spectralAttemptRun_eq]
    have hq : spectralQual oS npS pyS seed N K (aff, g) = none := by
      simp [spectralQual, he]
    simp [hq]
  · intro oB bf thr kid K rest res s he
    rw [birchSlotLoop, birchAttemptRun_eq]
    have hq : birchQual oB npS pyS seed K (bf, thr) = none := by
      simp [birchQual, he]
    simp [hq]
  · intro oG kid K rest res s he
    rw [gmLoop_cons, he]
  · intro oK kid K rest res s he
    rw [kmeansLoop_cons]
    rcases ho : oK K s with ⟨r, s2⟩
    rw [ho] at he
    cases r with
    | error e => rfl
    | ok l0 => simp at he

/-- Witness for the amended C4, at concrete raising oracles: the spectral
gamma loop and the birch slot pass skip the raising cell and continue,
while the gm and kmeans loops abort and return the error. -/
theorem C4_raise_handling_witness :
    spectralGammaLoop raiseOracleSpectral (fun _ => ()) (fun _ => ()) 123 3 5 "rbf"
        [Rat.mk' 1 4, Rat.mk' 1 2] ⟨(), ()⟩ =
      spectralGammaLoop raiseOracleSpectral (fun _ => ()) (fun _ => ()) 123 3 5 "rbf"
        [Rat.mk' 1 2] ⟨(), ()⟩ ∧
    birchSlotLoop raiseOracleBirch (fun _ => ()) (fun _ => ()) 123 10 (Rat.mk' 1 200)
        [(0, 3), (1, 4)] [] ⟨(), ()⟩ =
      birchSlotLoop raiseOracleBirch (fun _ => ()) (fun _ => ()) 123 10 (Rat.mk' 1 200)
        [(1, 4)] [] ⟨(), ()⟩ ∧
    gmLoop raiseOracleGm (fun _ => ()) (fun _ => ()) 123 [(0, 3)] [] ⟨(), ()⟩ =
      (Except.error (), ⟨(), ()⟩) ∧
    kmeansLoop raiseOracleGm (fun _ => ()) (fun _ => ()) 123 [(0, 3)] [] ⟨(), ()⟩ =
      (Except.error (), ⟨(), ()⟩) := by
  have h := C4_raise_handling_amended ((fun _ => ()) : Int → Unit) (fun _ => ()) 123 3
  exact ⟨h.1 raiseOracleSpectral 5 "rbf" (Rat.mk' 1 4) [Rat.mk' 1 2] ⟨(), ()⟩ rfl,
    h.2.1 raiseOracleBirch 10 (Rat.mk' 1 200) 0 3 [(1, 4)] [] ⟨(), ()⟩ rfl,
    h.2.2.1 raiseOracleGm 0 3 [] [] ⟨(), ()⟩ rfl,
    h.2.2.2 raiseOracleGm 0 3 [] [] ⟨(), ()⟩ rfl⟩
